import Mathlib

/-!
Verification of the sample-capture and waveform-reconciliation pipeline of the
drum-synthesis demo (source: src/src/App.tsx).

The embedding models the `DataSink` record and the four core operations:

* `createAnalyserWithDataSink` (App.tsx lines 77-101): allocation of the sink.
  The source fixes `maxBufferIndex = 100` and `bufferLength = 1024`
  (frequencyBinCount of an fftSize-2048 analyser) and takes the sample rate
  from the ambient audio context; the model takes these environment values as
  parameters, the loop body being independent of them.
* `clearData` (lines 103-140): the reconciler.  Times and amplitudes are JS
  numbers; the model uses `ℚ` (every time in the claims is an exact dyadic
  rational, and the accumulated increment `1/sampleRate` is exact in `ℚ`).
  The JS `Record<number, number>` is modelled as an insertion-ordered
  association list with last-write-wins update in place (`mapWrite`), and
  `Object.entries` enumeration follows the ECMAScript own-property order:
  array-index keys (non-negative integers below 2^32 - 1) first in ascending
  numeric order, then the remaining keys in insertion order (`jsEntries`).
* `gatherData` (lines 231-253): a single tick of the sampling loop
  (`gatherTick`); the recursion itself is driven by an external frame
  scheduler, so the model exposes one tick together with the index it
  schedules next.  The write into `rawData[currentIndex]` (set `timeStart`,
  then fill the byte array from the analyser tap) is recorded explicitly in a
  `TickWrite` so that an out-of-range target remains observable.
* `drawData` (lines 200-223): the renderer, modelled as the list of polyline
  vertices it emits (`moveTo` then the `lineTo` chain).
-/

namespace WebAudio

/-- One sampled snapshot: element type of `DataSink.rawData` in App.tsx. -/
structure Frame where
  timeStart : ℚ
  data : List ℕ
deriving DecidableEq, Repr

/-- The `DataSink` record of App.tsx (lines 5-14). -/
structure DataSink where
  sampleRate : ℚ
  bufferLength : ℕ
  maxBufferIndex : ℕ
  rawData : List Frame
  data : List ℕ
deriving DecidableEq, Repr

/-- Constant `cPlotPadding = 40` (App.tsx line 3). -/
def cPlotPadding : ℚ := 40

/-- Canvas width fixed by the JSX markup (App.tsx line 493). -/
def canvasWidth : ℚ := 1000

/-- Canvas height fixed by the JSX markup (App.tsx line 494). -/
def canvasHeight : ℚ := 1000

/-- Model of `createAnalyserWithDataSink` (App.tsx lines 77-101): the loop
pushes `maxBufferIndex` frames, each with `timeStart = -1` and a zero-filled
`Uint8Array` of length `bufferLength`. -/
def createAnalyserWithDataSink (sampleRate : ℚ) (bufferLength maxBufferIndex : ℕ) :
    DataSink :=
  { sampleRate := sampleRate
    bufferLength := bufferLength
    maxBufferIndex := maxBufferIndex
    rawData := List.replicate maxBufferIndex ⟨-1, List.replicate bufferLength 0⟩
    data := [] }

/-- One store `dataMap[k] = v` on the insertion-ordered association list: an
existing key keeps its position and gets the new value, a fresh key is
appended (JS object property semantics). -/
def mapWrite (m : List (ℚ × ℕ)) (k : ℚ) (v : ℕ) : List (ℚ × ℕ) :=
  match m with
  | [] => [(k, v)]
  | e :: rest => if e.1 = k then (k, v) :: rest else e :: mapWrite rest k v

/-- Inner loop of `clearData` (App.tsx lines 112-118): `n` remaining
iterations, `j` the current sample index, `time` the accumulated key;
each step stores `data[j]` under `time` and advances `time` by `inc`. -/
def writeFrameGo (data : List ℕ) (inc : ℚ) : ℕ → ℕ → ℚ → List (ℚ × ℕ) → List (ℚ × ℕ)
  | 0, _, _, m => m
  | n + 1, j, time, m => writeFrameGo data inc n (j + 1) (time + inc) (mapWrite m time (data.getD j 0))

/-- Body of the outer loop of `clearData` (App.tsx lines 107-119): skip an
unpopulated frame (`timeStart < 0`), otherwise run the inner loop for
`bufferLength` iterations starting at the frame's `timeStart`. -/
def writeFrame (w : ℕ) (inc : ℚ) (f : Frame) (m : List (ℚ × ℕ)) : List (ℚ × ℕ) :=
  if f.timeStart < 0 then m else writeFrameGo f.data inc w 0 f.timeStart m

/-- The intermediate `dataMap` built by `clearData` (App.tsx lines 105-119). -/
def buildDataMap (s : DataSink) : List (ℚ × ℕ) :=
  s.rawData.foldl (fun m f => writeFrame s.bufferLength (1 / s.sampleRate) f m) []

/-- Whether a numeric key prints as an ECMAScript array index ("0", "1", ...):
a non-negative integer below 2^32 - 1.  Such keys are enumerated first, in
ascending order, by `Object.entries`. -/
def isArrayIndexKey (q : ℚ) : Bool :=
  decide (q.den = 1) && decide (0 ≤ q.num) && decide (q.num < 4294967295)

/-- Sorted insertion of an entry by its key (ascending). -/
def insertByKey (e : ℚ × ℕ) : List (ℚ × ℕ) → List (ℚ × ℕ)
  | [] => [e]
  | f :: rest => if e.1 ≤ f.1 then e :: f :: rest else f :: insertByKey e rest

/-- Insertion sort of entries by key (ascending); the map's keys are
pairwise distinct, so tie order is irrelevant. -/
def sortByKey : List (ℚ × ℕ) → List (ℚ × ℕ)
  | [] => []
  | e :: rest => insertByKey e (sortByKey rest)

/-- Model of `Object.entries(dataMap)` (App.tsx line 125): array-index keys in
ascending numeric order first, then the remaining keys in insertion order. -/
def jsEntries (m : List (ℚ × ℕ)) : List (ℚ × ℕ) :=
  sortByKey (m.filter fun e => isArrayIndexKey e.1) ++
    m.filter fun e => !isArrayIndexKey e.1

/-- Value `epsilon = 1 * frameTimeInc` of `clearData` (App.tsx line 121). -/
def reconEpsilon (s : DataSink) : ℚ := 1 * (1 / s.sampleRate)

/-- Initial lower window bound `start = rawData[0].timeStart - epsilon`
(App.tsx line 122).  `rawData` is nonempty in every sink the source
constructs (capacity 100); the `headD` default covers the empty list only. -/
def reconStart (s : DataSink) : ℚ :=
  (s.rawData.headD ⟨-1, []⟩).timeStart - reconEpsilon s

/-- Initial upper window bound `end = rawData[0].timeStart + epsilon`
(App.tsx line 123). -/
def reconEnd (s : DataSink) : ℚ :=
  (s.rawData.headD ⟨-1, []⟩).timeStart + reconEpsilon s

/-- Acceptance scan of `clearData` (App.tsx lines 128-137): an entry whose
key lies in `[start, end]` is appended to the output and slides both bounds
forward by `2 * epsilon`; other entries are skipped. -/
def thin : List (ℚ × ℕ) → ℚ → ℚ → ℚ → List ℕ
  | [], _, _, _ => []
  | (t, v) :: rest, s, e, eps =>
    if s ≤ t ∧ t ≤ e then v :: thin rest (s + 2 * eps) (e + 2 * eps) eps
    else thin rest s e eps

/-- Model of `clearData` (App.tsx lines 103-140): build the map, enumerate
its entries, thin them through the sliding window, and store the result in
`data`.  Only the `data` field is assigned. -/
def clearData (s : DataSink) : DataSink :=
  { s with
    data := thin (jsEntries (buildDataMap s)) (reconStart s) (reconEnd s) (reconEpsilon s) }

/-- Vertical coordinate `getY(v) = v * canvas.height / 256` (App.tsx line 213). -/
def getY (height : ℚ) (v : ℕ) : ℚ := v * height / 256

/-- The `lineTo` chain of `drawData` (App.tsx lines 217-220): one vertex per
remaining sample, `x` advancing by `inc` after each. -/
def plotTail (height inc : ℚ) : List ℕ → ℚ → List (ℚ × ℚ)
  | [], _ => []
  | v :: rest, x => (x, getY height v) :: plotTail height inc rest (x + inc)

/-- Vertex list of the polyline drawn by `drawData` (App.tsx lines 200-223):
`moveTo(0, getY(data[0]))`, then for `i = 1 .. n-1` a `lineTo` at
`x = cPlotPadding + (i-1) * xIncrement` with `xIncrement = (width - cPlotPadding) / n`. -/
def drawDataPoints (width height : ℚ) (data : List ℕ) : List (ℚ × ℚ) :=
  let xIncrement := (width - cPlotPadding) / data.length
  (0, getY height (data.headD 0)) :: plotTail height xIncrement data.tail cPlotPadding

/-- Record of the in-place frame write a non-terminal tick performs, and the
index it schedules next (`requestAnimationFrame` with `currentIndex + 1`). -/
structure TickWrite where
  writeIndex : ℕ
  written : Frame
  next : ℕ
deriving DecidableEq, Repr

/-- Model of one tick of `gatherData` (App.tsx lines 231-253).  Terminal case
(`currentTime >= endTime || currentIndex > maxBufferIndex`): run `clearData`
and hand the reconciled sink to the renderer (the emitted polyline is
returned alongside).  Otherwise: store the current time and the tap bytes
into `rawData[currentIndex]` and schedule index `currentIndex + 1`. -/
def gatherTick (now deadline : ℚ) (tap : List ℕ) (s : DataSink) (i : ℕ) :
    (DataSink × List (ℚ × ℚ)) ⊕ (DataSink × TickWrite) :=
  if deadline ≤ now ∨ s.maxBufferIndex < i then
    Sum.inl (clearData s, drawDataPoints canvasWidth canvasHeight (clearData s).data)
  else
    Sum.inr ({ s with rawData := s.rawData.set i ⟨now, tap⟩ }, ⟨i, ⟨now, tap⟩, i + 1⟩)

/-- Spec-side write list for one frame, keyed by the closed formula
`frame.timeStart + sampleIndex / sampleRate` (spec section 4.2 step 1), to be
compared with the accumulating inner loop of the source. -/
def specFrameWrites (r : ℚ) (w : ℕ) (f : Frame) : List (ℚ × ℕ) :=
  (List.range w).map fun (j : ℕ) => (f.timeStart + (j : ℚ) / r, f.data.getD j 0)

/-- Application of a list of `(key, value)` stores to the map, in order. -/
def applyWrites (m : List (ℚ × ℕ)) (ws : List (ℚ × ℕ)) : List (ℚ × ℕ) :=
  ws.foldl (fun acc e => mapWrite acc e.1 e.2) m

/-- Collector state during a sampling run: the first `k` frames hold captured
data, the remaining `capacity - k` frames are still as allocated. -/
def populatedSink (r : ℚ) (w c : ℕ) (fs : List Frame) (k : ℕ) : DataSink :=
  { sampleRate := r
    bufferLength := w
    maxBufferIndex := c
    rawData := fs.take k ++ List.replicate (c - k) ⟨-1, List.replicate w 0⟩
    data := [] }

/-- Number of populated frames (`timeStart >= 0`). -/
def populatedCount (s : DataSink) : ℕ :=
  (s.rawData.filter fun f => decide (0 ≤ f.timeStart)).length

/-- Frames of the fixture of spec section 8: capacity 3, frame width 2,
sample rate 4. -/
def fixtureFrames : List Frame :=
  [⟨0, [10, 20]⟩, ⟨1/2, [30, 40]⟩, ⟨1, [50, 60]⟩]

/-- The fixture collector of spec section 8 with all three frames captured. -/
def fixtureSink : DataSink :=
  { sampleRate := 4
    bufferLength := 2
    maxBufferIndex := 3
    rawData := fixtureFrames
    data := [] }

/-- Key-level sorted insertion, mirroring `insertByKey` on first components. -/
def insertKey (k : ℚ) : List ℚ → List ℚ
  | [] => [k]
  | a :: rest => if k ≤ a then k :: a :: rest else a :: insertKey k rest

/-- Key-level insertion sort, mirroring `sortByKey` on first components. -/
def sortKeys : List ℚ → List ℚ
  | [] => []
  | a :: rest => insertKey a (sortKeys rest)

/-- Number of keys the acceptance scan accepts; the scan's course depends
only on the keys, so this mirrors `thin` with the values dropped. -/
def thinLen : List ℚ → ℚ → ℚ → ℚ → ℕ
  | [], _, _, _ => 0
  | t :: rest, s, e, eps =>
    if s ≤ t ∧ t ≤ e then thinLen rest (s + 2 * eps) (e + 2 * eps) eps + 1
    else thinLen rest s e eps

/-! Helper lemmas. -/

theorem foldl_writeFrame_skip (w : ℕ) (inc : ℚ) :
    ∀ (l : List Frame), (∀ f ∈ l, f.timeStart < 0) →
      ∀ m, l.foldl (fun m f => writeFrame w inc f m) m = m := by
  intro l
  induction l with
  | nil => intro _ m; rfl
  | cons f l ih =>
    intro h m
    have hf : f.timeStart < 0 := h f (List.mem_cons_self f l)
    simp only [List.foldl_cons, writeFrame, if_pos hf]
    exact ih (fun g hg => h g (List.mem_cons_of_mem f hg)) m

theorem listSet_getD {α : Type} :
    ∀ (l : List α) (i : ℕ) (a d : α), i < l.length → (l.set i a).getD i d = a
  | [], i, _, _, h => absurd h (by simp)
  | _ :: _, 0, _, _, _ => rfl
  | _ :: l, i + 1, a, d, h => listSet_getD l i a d (by simpa using h)

/-! Claim theorems. -/

/-- C10: `clearData` modifies only the `data` (mergedSamples) field of the
sink it consumes: sample rate, frame width, capacity and all frames are
unchanged. -/
theorem clearData_only_data (s : DataSink) :
    (clearData s).sampleRate = s.sampleRate ∧
    (clearData s).bufferLength = s.bufferLength ∧
    (clearData s).maxBufferIndex = s.maxBufferIndex ∧
    (clearData s).rawData = s.rawData :=
  ⟨rfl, rfl, rfl, rfl⟩

/-- C8: for all capacities and frame widths, `createAnalyserWithDataSink`
allocates exactly `capacity` frames, each with `timeStart = -1` and an
all-zero sample sequence of length exactly the frame width. -/
theorem createAnalyserWithDataSink_spec (r : ℚ) (w c : ℕ) :
    (createAnalyserWithDataSink r w c).rawData.length = c ∧
    ∀ f ∈ (createAnalyserWithDataSink r w c).rawData,
      f.timeStart = -1 ∧ f.data.length = w ∧ ∀ v ∈ f.data, v = 0 := by
  constructor
  · simp [createAnalyserWithDataSink]
  · intro f hf
    have hf' : f = ⟨-1, List.replicate w 0⟩ := List.eq_of_mem_replicate hf
    subst hf'
    exact ⟨rfl, by simp, fun v hv => List.eq_of_mem_replicate hv⟩

theorem createAnalyserWithDataSink_spec_witness :
    (createAnalyserWithDataSink 4 2 3).rawData.length = 3 ∧
    ((⟨-1, [0, 0]⟩ : Frame).timeStart = -1 ∧
      (Frame.data ⟨-1, [0, 0]⟩).length = 2 ∧ ∀ v ∈ (Frame.data ⟨-1, [0, 0]⟩), v = 0) :=
  ⟨(createAnalyserWithDataSink_spec 4 2 3).1,
    (createAnalyserWithDataSink_spec 4 2 3).2 ⟨-1, [0, 0]⟩
      (by simp [createAnalyserWithDataSink, List.replicate])⟩

/-- C3: on a collector none of whose frames is populated (every `timeStart`
negative, in particular the sentinel in `frames[0]` that seeds the window),
`clearData` produces an empty output: the intermediate map is empty, so the
acceptance scan has nothing to accept. -/
theorem clearData_unpopulated (s : DataSink) (h0 : 0 < s.rawData.length)
    (hall : ∀ f ∈ s.rawData, f.timeStart < 0) : (clearData s).data = [] := by
  have hm : buildDataMap s = [] :=
    foldl_writeFrame_skip s.bufferLength (1 / s.sampleRate) s.rawData hall []
  show thin (jsEntries (buildDataMap s)) _ _ _ = []
  rw [hm]
  rfl

theorem clearData_unpopulated_witness :
    0 < (createAnalyserWithDataSink 4 2 3).rawData.length ∧
    (clearData (createAnalyserWithDataSink 4 2 3)).data = [] :=
  ⟨by simp [createAnalyserWithDataSink],
    clearData_unpopulated (createAnalyserWithDataSink 4 2 3)
      (by simp [createAnalyserWithDataSink])
      (by
        intro f hf
        have hf' : f = ⟨-1, List.replicate 2 0⟩ := List.eq_of_mem_replicate hf
        rw [hf']
        norm_num)⟩

/-- C2: a tick invoked with `index = capacity` while the clock is still
before the deadline is not stopped by the off-by-one bound check
(`index > capacity`): it takes the write branch, and the write targets
`frames[capacity]`, which is outside the valid indices `0 .. capacity - 1`
of the frame sequence. -/
theorem gatherTick_out_of_range (now deadline : ℚ) (tap : List ℕ) (s : DataSink)
    (hlen : s.rawData.length = s.maxBufferIndex) (hnow : now < deadline) :
    gatherTick now deadline tap s s.maxBufferIndex =
      Sum.inr ({ s with rawData := s.rawData.set s.maxBufferIndex ⟨now, tap⟩ },
        ⟨s.maxBufferIndex, ⟨now, tap⟩, s.maxBufferIndex + 1⟩) ∧
    ¬ s.maxBufferIndex < s.rawData.length := by
  constructor
  · unfold gatherTick
    rw [if_neg (not_or.2 ⟨not_le.2 hnow, lt_irrefl _⟩)]
  · rw [hlen]
    exact lt_irrefl _

theorem gatherTick_out_of_range_witness :
    (createAnalyserWithDataSink 4 2 3).rawData.length =
      (createAnalyserWithDataSink 4 2 3).maxBufferIndex ∧
    (0 : ℚ) < 1 ∧
    (gatherTick 0 1 [7, 8] (createAnalyserWithDataSink 4 2 3)
        (createAnalyserWithDataSink 4 2 3).maxBufferIndex =
      Sum.inr ({ createAnalyserWithDataSink 4 2 3 with
          rawData := (createAnalyserWithDataSink 4 2 3).rawData.set
            (createAnalyserWithDataSink 4 2 3).maxBufferIndex ⟨0, [7, 8]⟩ },
        ⟨(createAnalyserWithDataSink 4 2 3).maxBufferIndex, ⟨0, [7, 8]⟩,
          (createAnalyserWithDataSink 4 2 3).maxBufferIndex + 1⟩) ∧
      ¬ (createAnalyserWithDataSink 4 2 3).maxBufferIndex <
          (createAnalyserWithDataSink 4 2 3).rawData.length) :=
  ⟨by simp [createAnalyserWithDataSink], by norm_num,
    gatherTick_out_of_range 0 1 [7, 8] (createAnalyserWithDataSink 4 2 3)
      (by simp [createAnalyserWithDataSink]) (by norm_num)⟩

/-- C7: every tick is the stated case split.  If the clock has reached the
deadline or `index > capacity`, the tick performs no write (the reconciled
sink keeps the frames unchanged), schedules nothing, and hands the sink to
the reconciler and then the renderer.  Otherwise it stores the current time
and the tap bytes into `frames[index]` and schedules exactly one next tick
with `index + 1`. -/
theorem gatherTick_cases (now deadline : ℚ) (tap : List ℕ) (s : DataSink) (i : ℕ) :
    (deadline ≤ now ∨ s.maxBufferIndex < i →
      gatherTick now deadline tap s i =
        Sum.inl (clearData s, drawDataPoints canvasWidth canvasHeight (clearData s).data) ∧
      (clearData s).rawData = s.rawData) ∧
    (now < deadline → i ≤ s.maxBufferIndex →
      gatherTick now deadline tap s i =
        Sum.inr ({ s with rawData := s.rawData.set i ⟨now, tap⟩ }, ⟨i, ⟨now, tap⟩, i + 1⟩) ∧
      ∀ _ : i < s.rawData.length,
        (s.rawData.set i ⟨now, tap⟩).getD i ⟨-1, []⟩ = ⟨now, tap⟩) := by
  refine ⟨fun h => ⟨?_, rfl⟩, fun h1 h2 => ⟨?_, fun hi => ?_⟩⟩
  · unfold gatherTick
    rw [if_pos h]
  · unfold gatherTick
    rw [if_neg (not_or.2 ⟨not_le.2 h1, not_lt.2 h2⟩)]
  · exact listSet_getD s.rawData i ⟨now, tap⟩ ⟨-1, []⟩ hi

theorem gatherTick_cases_witness :
    (gatherTick 5 1 [7, 8] (createAnalyserWithDataSink 4 2 3) 0 =
      Sum.inl (clearData (createAnalyserWithDataSink 4 2 3),
        drawDataPoints canvasWidth canvasHeight
          (clearData (createAnalyserWithDataSink 4 2 3)).data)) ∧
    (gatherTick 0 1 [7, 8] (createAnalyserWithDataSink 4 2 3) 0 =
      Sum.inr ({ createAnalyserWithDataSink 4 2 3 with
          rawData := (createAnalyserWithDataSink 4 2 3).rawData.set 0 ⟨0, [7, 8]⟩ },
        ⟨0, ⟨0, [7, 8]⟩, 1⟩)) :=
  ⟨((gatherTick_cases 5 1 [7, 8] (createAnalyserWithDataSink 4 2 3) 0).1
      (Or.inl (by norm_num))).1,
    ((gatherTick_cases 0 1 [7, 8] (createAnalyserWithDataSink 4 2 3) 0).2
      (by norm_num) (by norm_num)).1⟩

theorem plotTail_length (height inc : ℚ) :
    ∀ (l : List ℕ) (x : ℚ), (plotTail height inc l x).length = l.length
  | [], _ => rfl
  | _ :: l, x => by simp [plotTail, plotTail_length height inc l (x + inc)]

theorem plotTail_getD (height inc : ℚ) :
    ∀ (l : List ℕ) (x : ℚ) (k : ℕ), k < l.length →
      (plotTail height inc l x).getD k (0, 0) = (x + k * inc, getY height (l.getD k 0))
  | [], _, k, hk => absurd hk (by simp)
  | v :: l, x, 0, _ => by simp [plotTail, List.getD]
  | v :: l, x, k + 1, hk => by
    have ih := plotTail_getD height inc l (x + inc) k (by simpa using hk)
    show (plotTail height inc l (x + inc)).getD k (0, 0) = _
    rw [ih]
    simp only [Prod.mk.injEq]
    exact ⟨by push_cast; ring, rfl⟩

/-- C1: the spec section 8 fixture (capacity 3, frame width 2, sample rate 4,
frames at times 0, 0.5, 1.0).  `clearData` builds the intermediate mapping
`{0: 10, 0.25: 20, 0.5: 30, 0.75: 40, 1.0: 50, 1.25: 60}`, initializes the
window to `[-0.25, 0.25]`, first accepts key 0 (output so far `[10]`, window
advanced to `[0.25, 0.75]`), next accepts key 0.25 (output so far `[10, 20]`,
window `[0.75, 1.25]`), and the completed scan yields `[10, 20, 40, 60]`. -/
theorem fixture_reconcile :
    buildDataMap fixtureSink =
      [(0, 10), (1/4, 20), (1/2, 30), (3/4, 40), (1, 50), (5/4, 60)] ∧
    reconStart fixtureSink = -(1/4) ∧ reconEnd fixtureSink = 1/4 ∧
    thin (jsEntries (buildDataMap fixtureSink)) (-(1/4)) (1/4) (1/4) =
      10 :: thin ((jsEntries (buildDataMap fixtureSink)).drop 1) (1/4) (3/4) (1/4) ∧
    thin ((jsEntries (buildDataMap fixtureSink)).drop 1) (1/4) (3/4) (1/4) =
      20 :: thin ((jsEntries (buildDataMap fixtureSink)).drop 3) (3/4) (5/4) (1/4) ∧
    (clearData fixtureSink).data = [10, 20, 40, 60] := by
  norm_num [fixtureSink, fixtureFrames, clearData, buildDataMap, writeFrame,
    writeFrameGo, mapWrite, jsEntries, isArrayIndexKey, sortByKey, insertByKey,
    thin, reconStart, reconEnd, reconEpsilon, List.filter]

/-- C9 counterexample: for the fixture output `[10, 20, 30]` on the 1000 by
1000 canvas, the gap between the first two polyline vertices is the left
padding 40, not the claimed constant increment
`(surfaceWidth - padding) / n = 320`: the first vertex is emitted at `x = 0`
while the `lineTo` chain starts at the padding. -/
theorem drawDataPoints_not_evenly_spaced :
    ¬ (((drawDataPoints 1000 1000 [10, 20, 30]).getD 1 (0, 0)).1 -
        ((drawDataPoints 1000 1000 [10, 20, 30]).getD 0 (0, 0)).1 =
        (1000 - cPlotPadding) / (([10, 20, 30] : List ℕ).length : ℚ)) := by
  norm_num [drawDataPoints, plotTail, cPlotPadding, getY, List.getD]

/-- C9 as amended: every vertex's vertical coordinate is
`mergedSamples[i] * surfaceHeight / 256`; the first vertex sits at `x = 0`,
and vertex `i + 1` sits at `x = padding + i * (surfaceWidth - padding) / n`,
so only the `lineTo` chain after the initial vertex advances by the constant
increment. -/
theorem drawDataPoints_spec (width height : ℚ) (data : List ℕ) (hne : data ≠ []) :
    (drawDataPoints width height data).length = data.length ∧
    (∀ i, i < data.length →
      ((drawDataPoints width height data).getD i (0, 0)).2 =
        (data.getD i 0 : ℚ) * height / 256) ∧
    ((drawDataPoints width height data).getD 0 (0, 0)).1 = 0 ∧
    (∀ i, i + 1 < data.length →
      ((drawDataPoints width height data).getD (i + 1) (0, 0)).1 =
        cPlotPadding + i * ((width - cPlotPadding) / data.length)) := by
  obtain ⟨v, rest, rfl⟩ : ∃ v rest, data = v :: rest := by
    cases data with
    | nil => exact absurd rfl hne
    | cons v rest => exact ⟨v, rest, rfl⟩
  have hstep : ∀ k : ℕ,
      (drawDataPoints width height (v :: rest)).getD (k + 1) (0, 0) =
        (plotTail height ((width - cPlotPadding) / ((v :: rest).length : ℚ))
          rest cPlotPadding).getD k (0, 0) := fun k => rfl
  refine ⟨?_, ?_, rfl, ?_⟩
  · simp [drawDataPoints, plotTail_length]
  · intro i hi
    cases i with
    | zero => simp [drawDataPoints, getY, List.getD]
    | succ i =>
      have hi' : i < rest.length := by simpa using hi
      rw [hstep i, plotTail_getD height _ rest cPlotPadding i hi']
      simp [getY, List.getD]
  · intro i hi
    have hi' : i < rest.length := by simpa using hi
    rw [hstep i, plotTail_getD height _ rest cPlotPadding i hi']

theorem drawDataPoints_spec_witness :
    ([10, 20, 30] : List ℕ) ≠ [] ∧
    ((drawDataPoints 1000 1000 [10, 20, 30]).length = ([10, 20, 30] : List ℕ).length ∧
    (∀ i, i < ([10, 20, 30] : List ℕ).length →
      ((drawDataPoints 1000 1000 [10, 20, 30]).getD i (0, 0)).2 =
        (([10, 20, 30] : List ℕ).getD i 0 : ℚ) * 1000 / 256) ∧
    ((drawDataPoints 1000 1000 [10, 20, 30]).getD 0 (0, 0)).1 = 0 ∧
    (∀ i, i + 1 < ([10, 20, 30] : List ℕ).length →
      ((drawDataPoints 1000 1000 [10, 20, 30]).getD (i + 1) (0, 0)).1 =
        cPlotPadding + i * ((1000 - cPlotPadding) / ([10, 20, 30] : List ℕ).length))) :=
  ⟨by simp, drawDataPoints_spec 1000 1000 [10, 20, 30] (by simp)⟩

theorem writeFrameGo_eq_applyWrites (data : List ℕ) (inc : ℚ) :
    ∀ (n j : ℕ) (t : ℚ) (m : List (ℚ × ℕ)),
      writeFrameGo data inc n j t m =
        applyWrites m ((List.range n).map fun (i : ℕ) => (t + i * inc, data.getD (j + i) 0)) := by
  intro n
  induction n with
  | zero => intro j t m; rfl
  | succ n ih =>
    intro j t m
    rw [writeFrameGo, ih (j + 1) (t + inc) (mapWrite m t (data.getD j 0)),
      List.range_succ_eq_map, List.map_cons, List.map_map]
    show applyWrites (mapWrite m t (data.getD j 0)) _ =
      applyWrites (mapWrite m (t + (0 : ℕ) * inc) (data.getD (j + 0) 0)) _
    have h0 : t + ((0 : ℕ) : ℚ) * inc = t := by push_cast; ring
    rw [h0, Nat.add_zero]
    refine congrArg _ (List.map_congr_left fun i _ => ?_)
    simp only [Function.comp_apply, Prod.mk.injEq]
    constructor
    · push_cast
      ring
    · rw [show j + (i + 1) = j + 1 + i from by omega]

/-- C6: every store performed while building the intermediate map uses the
key `frame.timeStart + sampleIndex / sampleRate` and the amplitude
`frame.samples[sampleIndex]`: the accumulating loop
(`time += 1/sampleRate`) of the source coincides with the direct formula,
so `buildDataMap` equals the fold of the spec-side write lists
`specFrameWrites` over the populated frames. -/
theorem buildDataMap_direct_keys (s : DataSink) :
    buildDataMap s =
      s.rawData.foldl
        (fun m f =>
          if f.timeStart < 0 then m
          else applyWrites m (specFrameWrites s.sampleRate s.bufferLength f)) [] := by
  unfold buildDataMap
  have hfr : ∀ (f : Frame) (m : List (ℚ × ℕ)),
      writeFrame s.bufferLength (1 / s.sampleRate) f m =
        if f.timeStart < 0 then m
        else applyWrites m (specFrameWrites s.sampleRate s.bufferLength f) := by
    intro f m
    unfold writeFrame
    rcases lt_or_le f.timeStart 0 with h | h
    · rw [if_pos h, if_pos h]
    · rw [if_neg (not_lt.2 h), if_neg (not_lt.2 h),
        writeFrameGo_eq_applyWrites f.data (1 / s.sampleRate) s.bufferLength 0 f.timeStart m]
      unfold specFrameWrites
      refine congrArg _ (List.map_congr_left fun i _ => ?_)
      rw [mul_one_div, Nat.zero_add]
  have haux : ∀ (l : List Frame) (m : List (ℚ × ℕ)),
      l.foldl (fun m f => writeFrame s.bufferLength (1 / s.sampleRate) f m) m =
        l.foldl
          (fun m f =>
            if f.timeStart < 0 then m
            else applyWrites m (specFrameWrites s.sampleRate s.bufferLength f)) m := by
    intro l
    induction l with
    | nil => intro m; rfl
    | cons f l ih =>
      intro m
      simp only [List.foldl_cons, hfr f m]
      exact ih _
  exact haux s.rawData []

theorem mapWrite_length_le (k : ℚ) (v : ℕ) :
    ∀ m : List (ℚ × ℕ), (mapWrite m k v).length ≤ m.length + 1
  | [] => by simp [mapWrite]
  | e :: rest => by
    rw [mapWrite]
    split
    · simp
    · simpa using Nat.succ_le_succ (mapWrite_length_le k v rest)

theorem writeFrameGo_length_le (data : List ℕ) (inc : ℚ) :
    ∀ (n j : ℕ) (t : ℚ) (m : List (ℚ × ℕ)),
      (writeFrameGo data inc n j t m).length ≤ m.length + n := by
  intro n
  induction n with
  | zero => intro j t m; simp [writeFrameGo]
  | succ n ih =>
    intro j t m
    rw [writeFrameGo]
    calc (writeFrameGo data inc n (j + 1) (t + inc) (mapWrite m t (data.getD j 0))).length
        ≤ (mapWrite m t (data.getD j 0)).length + n := ih _ _ _
      _ ≤ (m.length + 1) + n := Nat.add_le_add_right (mapWrite_length_le t (data.getD j 0) m) n
      _ = m.length + (n + 1) := by omega

theorem foldl_writeFrame_length_le (w : ℕ) (inc : ℚ) :
    ∀ (l : List Frame) (m : List (ℚ × ℕ)),
      (l.foldl (fun m f => writeFrame w inc f m) m).length ≤
        m.length + (l.filter fun f => decide (0 ≤ f.timeStart)).length * w := by
  intro l
  induction l with
  | nil => intro m; simp
  | cons f l ih =>
    intro m
    rw [List.foldl_cons]
    rcases lt_or_le f.timeStart 0 with h | h
    · have hw : writeFrame w inc f m = m := by rw [writeFrame, if_pos h]
      have hfilter : (f :: l).filter (fun f => decide (0 ≤ f.timeStart)) =
          l.filter (fun f => decide (0 ≤ f.timeStart)) := by
        simp [List.filter_cons, not_le.2 h]
      rw [hw, hfilter]
      exact ih m
    · have hw : (writeFrame w inc f m).length ≤ m.length + w := by
        rw [writeFrame, if_neg (not_lt.2 h)]
        exact writeFrameGo_length_le f.data inc w 0 f.timeStart m
      have hfilter : (f :: l).filter (fun f => decide (0 ≤ f.timeStart)) =
          f :: l.filter (fun f => decide (0 ≤ f.timeStart)) := by
        simp [List.filter_cons, h]
      calc (l.foldl (fun m f => writeFrame w inc f m) (writeFrame w inc f m)).length
          ≤ (writeFrame w inc f m).length +
              (l.filter fun f => decide (0 ≤ f.timeStart)).length * w := ih _
        _ ≤ (m.length + w) +
              (l.filter fun f => decide (0 ≤ f.timeStart)).length * w :=
            Nat.add_le_add_right hw _
        _ ≤ m.length +
              ((f :: l).filter fun f => decide (0 ≤ f.timeStart)).length * w := by
            rw [hfilter, List.length_cons, Nat.succ_mul]
            omega

theorem insertByKey_length (e : ℚ × ℕ) :
    ∀ l : List (ℚ × ℕ), (insertByKey e l).length = l.length + 1
  | [] => rfl
  | f :: rest => by
    rw [insertByKey]
    split
    · simp only [List.length_cons]
    · simp only [List.length_cons, insertByKey_length e rest]

theorem sortByKey_length : ∀ l : List (ℚ × ℕ), (sortByKey l).length = l.length
  | [] => rfl
  | e :: rest => by
    rw [sortByKey, insertByKey_length, sortByKey_length rest, List.length_cons]

theorem length_filter_partition {α : Type} (p : α → Bool) :
    ∀ l : List α, (l.filter p).length + (l.filter fun a => !p a).length = l.length
  | [] => rfl
  | a :: l => by
    have ih := length_filter_partition p l
    rcases Bool.eq_false_or_eq_true (p a) with h | h <;>
        simp [List.filter_cons, h] <;> omega

theorem jsEntries_length (m : List (ℚ × ℕ)) : (jsEntries m).length = m.length := by
  rw [jsEntries, List.length_append, sortByKey_length]
  exact length_filter_partition (fun e => isArrayIndexKey e.1) m

theorem thin_length_le : ∀ (l : List (ℚ × ℕ)) (s e eps : ℚ), (thin l s e eps).length ≤ l.length
  | [], _, _, _ => Nat.le_refl 0
  | (t, v) :: rest, s, e, eps => by
    rw [thin]
    split
    · simpa using Nat.succ_le_succ (thin_length_le rest (s + 2 * eps) (e + 2 * eps) eps)
    · exact le_trans (thin_length_le rest s e eps) (Nat.le_succ _)

/-- C5: the reconciled output is never longer than the number of populated
frames times the frame width: the intermediate map holds at most one entry
per store, each populated frame performs exactly `bufferLength` stores, and
the acceptance scan only drops entries. -/
theorem clearData_length_le (s : DataSink) :
    ((clearData s).data).length ≤ populatedCount s * s.bufferLength := by
  have h1 : ((clearData s).data).length ≤ (jsEntries (buildDataMap s)).length :=
    thin_length_le _ _ _ _
  rw [jsEntries_length] at h1
  have h2 : (buildDataMap s).length ≤ populatedCount s * s.bufferLength := by
    have h := foldl_writeFrame_length_le s.bufferLength (1 / s.sampleRate) s.rawData []
    simpa [populatedCount, buildDataMap] using h
  exact le_trans h1 h2

theorem mem_insertKey {x k : ℚ} : ∀ {l : List ℚ}, x ∈ insertKey k l → x = k ∨ x ∈ l
  | [] => by simp [insertKey]
  | a :: l => by
    by_cases h : k ≤ a
    · rw [insertKey, if_pos h]
      intro hx
      rcases List.mem_cons.1 hx with h' | h'
      · exact Or.inl h'
      · exact Or.inr h'
    · rw [insertKey, if_neg h]
      intro hx
      rcases List.mem_cons.1 hx with h' | h'
      · exact Or.inr (h' ▸ List.mem_cons_self a l)
      · rcases mem_insertKey h' with h'' | h''
        · exact Or.inl h''
        · exact Or.inr (List.mem_cons_of_mem a h'')

theorem insertKey_pairwise (k : ℚ) :
    ∀ {l : List ℚ}, l.Pairwise (· ≤ ·) → (insertKey k l).Pairwise (· ≤ ·)
  | [], _ => by simp [insertKey]
  | a :: l, h => by
    rcases List.pairwise_cons.1 h with ⟨ha, hl⟩
    by_cases hk : k ≤ a
    · rw [insertKey, if_pos hk]
      refine List.pairwise_cons.2 ⟨fun b hb => ?_, h⟩
      rcases List.mem_cons.1 hb with rfl | hb'
      · exact hk
      · exact le_trans hk (ha b hb')
    · rw [insertKey, if_neg hk]
      refine List.pairwise_cons.2 ⟨fun b hb => ?_, insertKey_pairwise k hl⟩
      rcases mem_insertKey hb with rfl | hb'
      · exact le_of_not_le hk
      · exact ha b hb'

theorem sortKeys_pairwise : ∀ l : List ℚ, (sortKeys l).Pairwise (· ≤ ·)
  | [] => List.Pairwise.nil
  | a :: l => insertKey_pairwise a (sortKeys_pairwise l)

theorem sublist_insertKey (k : ℚ) {l₁ l₂ : List ℚ} (h : List.Sublist l₁ l₂) :
    List.Sublist l₁ (insertKey k l₂) := by
  induction h with
  | slnil => exact List.nil_sublist _
  | cons a h ih =>
    by_cases hk : k ≤ a
    · rw [insertKey, if_pos hk]
      exact List.Sublist.cons k (List.Sublist.cons a h)
    · rw [insertKey, if_neg hk]
      exact List.Sublist.cons a ih
  | cons₂ a h ih =>
    by_cases hk : k ≤ a
    · rw [insertKey, if_pos hk]
      exact List.Sublist.cons k (List.Sublist.cons₂ a h)
    · rw [insertKey, if_neg hk]
      exact List.Sublist.cons₂ a ih

theorem insertKey_sublist_insertKey (k : ℚ) {l₁ l₂ : List ℚ}
    (h : List.Sublist l₁ l₂) :
    l₂.Pairwise (· ≤ ·) → List.Sublist (insertKey k l₁) (insertKey k l₂) := by
  induction h with
  | slnil => intro _; exact List.Sublist.refl _
  | @cons l₁ l₂ a h ih =>
    intro hp
    rcases List.pairwise_cons.1 hp with ⟨ha, hl⟩
    by_cases hk : k ≤ a
    · rw [insertKey, if_pos hk]
      cases l₁ with
      | nil =>
        rw [insertKey]
        exact List.Sublist.cons₂ k (List.nil_sublist _)
      | cons b t =>
        have hb : k ≤ b := le_trans hk (ha b (h.subset (List.mem_cons_self b t)))
        rw [insertKey, if_pos hb]
        exact List.Sublist.cons₂ k (List.Sublist.cons a h)
    · rw [insertKey, if_neg hk]
      exact List.Sublist.cons a (ih hl)
  | @cons₂ l₁ l₂ a h ih =>
    intro hp
    rcases List.pairwise_cons.1 hp with ⟨_, hl⟩
    by_cases hk : k ≤ a
    · rw [insertKey, if_pos hk, insertKey, if_pos hk]
      exact List.Sublist.cons₂ k (List.Sublist.cons₂ a h)
    · rw [insertKey, if_neg hk, insertKey, if_neg hk]
      exact List.Sublist.cons₂ a (ih hl)

theorem sortKeys_sublist {l₁ l₂ : List ℚ} (h : List.Sublist l₁ l₂) :
    List.Sublist (sortKeys l₁) (sortKeys l₂) := by
  induction h with
  | slnil => exact List.Sublist.refl _
  | cons a h ih =>
    show List.Sublist (sortKeys _) (insertKey a (sortKeys _))
    exact sublist_insertKey a ih
  | cons₂ a h ih =>
    show List.Sublist (insertKey a (sortKeys _)) (insertKey a (sortKeys _))
    exact insertKey_sublist_insertKey a ih (sortKeys_pairwise _)

theorem map_fst_filter (p : ℚ → Bool) :
    ∀ l : List (ℚ × ℕ),
      ((l.filter fun e => p e.1).map Prod.fst) = (l.map Prod.fst).filter p
  | [] => rfl
  | e :: l => by
    by_cases h : p e.1 = true
    · simp [List.filter_cons, h, map_fst_filter p l]
    · simp [List.filter_cons, h, map_fst_filter p l]

theorem map_fst_filter_not (l : List (ℚ × ℕ)) :
    ((l.filter fun e => !isArrayIndexKey e.1).map Prod.fst) =
      (l.map Prod.fst).filter fun q => !isArrayIndexKey q :=
  map_fst_filter (fun q => !isArrayIndexKey q) l

theorem map_fst_insertByKey (e : ℚ × ℕ) :
    ∀ l : List (ℚ × ℕ), (insertByKey e l).map Prod.fst = insertKey e.1 (l.map Prod.fst)
  | [] => rfl
  | f :: l => by
    by_cases h : e.1 ≤ f.1
    · simp [insertByKey, insertKey, h]
    · simp [insertByKey, insertKey, h, map_fst_insertByKey e l]

theorem map_fst_sortByKey :
    ∀ l : List (ℚ × ℕ), (sortByKey l).map Prod.fst = sortKeys (l.map Prod.fst)
  | [] => rfl
  | e :: l => by
    show (insertByKey e (sortByKey l)).map Prod.fst = sortKeys (e.1 :: l.map Prod.fst)
    rw [map_fst_insertByKey, map_fst_sortByKey l]
    rfl

theorem map_fst_jsEntries (m : List (ℚ × ℕ)) :
    (jsEntries m).map Prod.fst =
      sortKeys ((m.map Prod.fst).filter isArrayIndexKey) ++
        ((m.map Prod.fst).filter fun q => !isArrayIndexKey q) := by
  rw [jsEntries, List.map_append, map_fst_sortByKey, map_fst_filter isArrayIndexKey m,
    map_fst_filter_not m]

theorem thinLen_shift (eps : ℚ) :
    ∀ (ks : List ℚ) (s e : ℚ),
      thinLen ks s e eps ≤ thinLen ks (s + 2 * eps) (e + 2 * eps) eps + 1
  | [], _, _ => by simp [thinLen]
  | k :: ks, s, e => by
    rw [thinLen, thinLen]
    by_cases h1 : s ≤ k ∧ k ≤ e
    · rw [if_pos h1]
      by_cases h2 : s + 2 * eps ≤ k ∧ k ≤ e + 2 * eps
      · rw [if_pos h2]
        exact Nat.succ_le_succ (thinLen_shift eps ks (s + 2 * eps) (e + 2 * eps))
      · rw [if_neg h2]
    · rw [if_neg h1]
      by_cases h2 : s + 2 * eps ≤ k ∧ k ≤ e + 2 * eps
      · rw [if_pos h2]
        calc thinLen ks s e eps
            ≤ thinLen ks (s + 2 * eps) (e + 2 * eps) eps + 1 := thinLen_shift eps ks s e
          _ ≤ (thinLen ks (s + 2 * eps + 2 * eps) (e + 2 * eps + 2 * eps) eps + 1) + 1 :=
              Nat.succ_le_succ (thinLen_shift eps ks (s + 2 * eps) (e + 2 * eps))
      · rw [if_neg h2]
        exact thinLen_shift eps ks s e

theorem thinLen_mono_sublist (eps : ℚ) {ks₁ ks₂ : List ℚ} (h : List.Sublist ks₁ ks₂) :
    ∀ s e : ℚ, thinLen ks₁ s e eps ≤ thinLen ks₂ s e eps := by
  induction h with
  | slnil => intro s e; exact Nat.le_refl _
  | @cons l₁ l₂ a h ih =>
    intro s e
    by_cases ha : s ≤ a ∧ a ≤ e
    · rw [show thinLen (a :: l₂) s e eps =
          thinLen l₂ (s + 2 * eps) (e + 2 * eps) eps + 1 from by rw [thinLen, if_pos ha]]
      calc thinLen l₁ s e eps ≤ thinLen l₂ s e eps := ih s e
        _ ≤ thinLen l₂ (s + 2 * eps) (e + 2 * eps) eps + 1 := thinLen_shift eps l₂ s e
    · rw [show thinLen (a :: l₂) s e eps = thinLen l₂ s e eps from by rw [thinLen, if_neg ha]]
      exact ih s e
  | @cons₂ l₁ l₂ a h ih =>
    intro s e
    by_cases ha : s ≤ a ∧ a ≤ e
    · rw [show thinLen (a :: l₁) s e eps =
          thinLen l₁ (s + 2 * eps) (e + 2 * eps) eps + 1 from by rw [thinLen, if_pos ha],
        show thinLen (a :: l₂) s e eps =
          thinLen l₂ (s + 2 * eps) (e + 2 * eps) eps + 1 from by rw [thinLen, if_pos ha]]
      exact Nat.succ_le_succ (ih _ _)
    · rw [show thinLen (a :: l₁) s e eps = thinLen l₁ s e eps from by rw [thinLen, if_neg ha],
        show thinLen (a :: l₂) s e eps = thinLen l₂ s e eps from by rw [thinLen, if_neg ha]]
      exact ih s e

theorem thin_length_eq_thinLen :
    ∀ (l : List (ℚ × ℕ)) (s e eps : ℚ),
      (thin l s e eps).length = thinLen (l.map Prod.fst) s e eps
  | [], _, _, _ => rfl
  | (t, v) :: rest, s, e, eps => by
    show (thin ((t, v) :: rest) s e eps).length = thinLen (t :: rest.map Prod.fst) s e eps
    rw [thin, thinLen]
    by_cases h : s ≤ t ∧ t ≤ e
    · rw [if_pos h, if_pos h, List.length_cons,
        thin_length_eq_thinLen rest (s + 2 * eps) (e + 2 * eps) eps]
    · rw [if_neg h, if_neg h]
      exact thin_length_eq_thinLen rest s e eps

theorem mapWrite_keys (k : ℚ) (v : ℕ) :
    ∀ m : List (ℚ × ℕ), ∃ t, (mapWrite m k v).map Prod.fst = m.map Prod.fst ++ t
  | [] => ⟨[k], rfl⟩
  | e :: rest => by
    by_cases h : e.1 = k
    · exact ⟨[], by simp [mapWrite, h]⟩
    · obtain ⟨t, ht⟩ := mapWrite_keys k v rest
      exact ⟨t, by simp [mapWrite, h, ht]⟩

theorem writeFrameGo_keys (data : List ℕ) (inc : ℚ) :
    ∀ (n j : ℕ) (time : ℚ) (m : List (ℚ × ℕ)),
      ∃ t, (writeFrameGo data inc n j time m).map Prod.fst = m.map Prod.fst ++ t := by
  intro n
  induction n with
  | zero => intro j time m; exact ⟨[], by simp [writeFrameGo]⟩
  | succ n ih =>
    intro j time m
    obtain ⟨t1, ht1⟩ := mapWrite_keys time (data.getD j 0) m
    obtain ⟨t2, ht2⟩ := ih (j + 1) (time + inc) (mapWrite m time (data.getD j 0))
    exact ⟨t1 ++ t2, by rw [writeFrameGo, ht2, ht1, List.append_assoc]⟩

theorem writeFrame_keys (w : ℕ) (inc : ℚ) (f : Frame) (m : List (ℚ × ℕ)) :
    ∃ t, (writeFrame w inc f m).map Prod.fst = m.map Prod.fst ++ t := by
  unfold writeFrame
  by_cases h : f.timeStart < 0
  · exact ⟨[], by rw [if_pos h, List.append_nil]⟩
  · rw [if_neg h]
    exact writeFrameGo_keys f.data inc w 0 f.timeStart m

theorem buildDataMap_populatedSink (r : ℚ) (w c : ℕ) (fs : List Frame) (k : ℕ) :
    buildDataMap (populatedSink r w c fs k) =
      (fs.take k).foldl (fun m f => writeFrame w (1 / r) f m) [] := by
  show ((fs.take k ++ List.replicate (c - k) (⟨-1, List.replicate w 0⟩ : Frame)).foldl
      (fun m f => writeFrame w (1 / r) f m) []) =
    (fs.take k).foldl (fun m f => writeFrame w (1 / r) f m) []
  rw [List.foldl_append]
  exact foldl_writeFrame_skip w (1 / r) _
    (fun f hf => by rw [List.eq_of_mem_replicate hf]; norm_num) _

theorem populatedSink_headD (r : ℚ) (w c : ℕ) (fs : List Frame) (k : ℕ)
    (hk : 1 ≤ k) (hlen : k ≤ fs.length) :
    (populatedSink r w c fs k).rawData.headD ⟨-1, []⟩ = fs.headD ⟨-1, []⟩ := by
  cases fs with
  | nil =>
    exact (Nat.not_succ_le_zero 0 (le_trans hk (by simpa using hlen))).elim
  | cons f fs' =>
    cases k with
    | zero => exact (Nat.not_succ_le_zero 0 hk).elim
    | succ k' =>
      show (((f :: fs').take (k' + 1) ++ _).headD _) = _
      rw [List.take_succ_cons]
      rfl

/-- C4: output length is non-decreasing in the number of populated frames.
For a collector holding a populated prefix of frames, populating one more
frame only appends keys to the intermediate map (overwrites keep position),
hence the enumerated key sequence of the map with `k` frames is a sublist of
the one with `k + 1` frames, and the window scan accepts at least as many
entries from a supersequence. -/
theorem clearData_length_monotone (r : ℚ) (w c : ℕ) (fs : List Frame) (k : ℕ)
    (hpop : ∀ f ∈ fs, 0 ≤ f.timeStart) (hk : k + 1 ≤ fs.length) (hc : k + 1 ≤ c) :
    ((clearData (populatedSink r w c fs k)).data).length ≤
      ((clearData (populatedSink r w c fs (k + 1))).data).length := by
  rcases Nat.eq_zero_or_pos k with rfl | hk1
  · have hmap : buildDataMap (populatedSink r w c fs 0) = [] := by
      rw [buildDataMap_populatedSink]
      rfl
    have hdata : (clearData (populatedSink r w c fs 0)).data = [] := by
      show thin (jsEntries (buildDataMap (populatedSink r w c fs 0))) _ _ _ = []
      rw [hmap]
      rfl
    rw [hdata]
    exact Nat.zero_le _
  · have hklen : k < fs.length := hk
    have hMk : buildDataMap (populatedSink r w c fs k) =
        (fs.take k).foldl (fun m f => writeFrame w (1 / r) f m) [] :=
      buildDataMap_populatedSink r w c fs k
    have hMk1 : buildDataMap (populatedSink r w c fs (k + 1)) =
        writeFrame w (1 / r) fs[k]
          ((fs.take k).foldl (fun m f => writeFrame w (1 / r) f m) []) := by
      rw [buildDataMap_populatedSink, List.take_succ, List.getElem?_eq_getElem hklen]
      rw [List.foldl_append]
      rfl
    obtain ⟨t, ht⟩ := writeFrame_keys w (1 / r) fs[k]
      ((fs.take k).foldl (fun m f => writeFrame w (1 / r) f m) [])
    have hkeys : (buildDataMap (populatedSink r w c fs (k + 1))).map Prod.fst =
        (buildDataMap (populatedSink r w c fs k)).map Prod.fst ++ t := by
      rw [hMk, hMk1, ht]
    have hsub : List.Sublist ((jsEntries (buildDataMap (populatedSink r w c fs k))).map Prod.fst)
        ((jsEntries (buildDataMap (populatedSink r w c fs (k + 1)))).map Prod.fst) := by
      rw [map_fst_jsEntries, map_fst_jsEntries, hkeys, List.filter_append, List.filter_append]
      exact List.Sublist.append
        (sortKeys_sublist (List.sublist_append_left _ _))
        (List.sublist_append_left _ _)
    have hstart : reconStart (populatedSink r w c fs k) =
        reconStart (populatedSink r w c fs (k + 1)) := by
      unfold reconStart
      rw [populatedSink_headD r w c fs k hk1 (le_of_lt hklen),
        populatedSink_headD r w c fs (k + 1) (by omega) hk]
      rfl
    have hend : reconEnd (populatedSink r w c fs k) =
        reconEnd (populatedSink r w c fs (k + 1)) := by
      unfold reconEnd
      rw [populatedSink_headD r w c fs k hk1 (le_of_lt hklen),
        populatedSink_headD r w c fs (k + 1) (by omega) hk]
      rfl
    have heps : reconEpsilon (populatedSink r w c fs k) =
        reconEpsilon (populatedSink r w c fs (k + 1)) := rfl
    calc ((clearData (populatedSink r w c fs k)).data).length
        = thinLen ((jsEntries (buildDataMap (populatedSink r w c fs k))).map Prod.fst)
            (reconStart (populatedSink r w c fs k)) (reconEnd (populatedSink r w c fs k))
            (reconEpsilon (populatedSink r w c fs k)) :=
          thin_length_eq_thinLen _ _ _ _
      _ ≤ thinLen ((jsEntries (buildDataMap (populatedSink r w c fs (k + 1)))).map Prod.fst)
            (reconStart (populatedSink r w c fs k)) (reconEnd (populatedSink r w c fs k))
            (reconEpsilon (populatedSink r w c fs k)) :=
          thinLen_mono_sublist _ hsub _ _
      _ = ((clearData (populatedSink r w c fs (k + 1))).data).length := by
          rw [hstart, hend, heps]
          exact (thin_length_eq_thinLen _ _ _ _).symm

theorem clearData_length_monotone_witness :
    (∀ f ∈ fixtureFrames, 0 ≤ f.timeStart) ∧ 1 + 1 ≤ fixtureFrames.length ∧ 1 + 1 ≤ 3 ∧
    ((clearData (populatedSink 4 2 3 fixtureFrames 1)).data).length ≤
      ((clearData (populatedSink 4 2 3 fixtureFrames (1 + 1))).data).length :=
  ⟨by
    intro f hf
    simp [fixtureFrames] at hf
    rcases hf with rfl | rfl | rfl <;> norm_num,
    by norm_num [fixtureFrames], by norm_num,
    clearData_length_monotone 4 2 3 fixtureFrames 1
      (by
        intro f hf
        simp [fixtureFrames] at hf
        rcases hf with rfl | rfl | rfl <;> norm_num)
      (by norm_num [fixtureFrames]) (by norm_num)⟩

end WebAudio
